import Mathlib

/-!
A shallow embedding of the AI-code-likelihood evaluator from
`eval-ai-code/services/CodeEvaluatorService.py`, together with proofs of the
behavioural claims about file selection, content loading, oracle-response
handling, score aggregation, and the bounded-concurrency evaluation loop.

Python strings are modelled at code-point granularity: a Python `str` is a
`String` whose `.data : List Char` is the sequence of code points, so Python
slicing `s[:n]` is `List.take n` on `.data`, and `len(s)` is `String.length`.
Python `float` arithmetic in the aggregator (`len * 0.6`, `total / len`,
`round`) is modelled over `ℚ`; for the integer counts and 1..10 scores that
occur here, CPython's binary floating point computes the same comparisons and
the same half-to-even rounding as exact rational arithmetic, so the `ℚ` model
is faithful on the reachable inputs.
-/

namespace CodeEvaluator

/-- Python `s[:n]` on a `str`: the first `n` code points. -/
def strTake (s : String) (n : Nat) : String := ⟨s.data.take n⟩

/-- Python `str.lower()` (ASCII-relevant part, which is all the evaluator
compares: extensions from the allow-list are ASCII). -/
def lowerStr (s : String) : String := ⟨s.data.map Char.toLower⟩

/-- Python `part.startswith('.')`: true iff the first code point is `'.'`. -/
def startsDot (s : String) : Bool := s.data.head? == some '.'

/-- `pathlib.PurePath.name`: the final path segment (empty for no segments). -/
def pathName (parts : List String) : String := (parts.getLast?).getD ""

/-- `pathlib.PurePath.suffix` of a file name: `name[i:]` for `i` the index of
the last `'.'` when `0 < i < len(name) - 1`, else the empty string (so
`.env` and `a.` have empty suffix, `a.tar.gz` has suffix `.gz`). -/
def pySuffix (name : String) : String :=
  let cs := name.data
  match cs.reverse.findIdx? (· == '.') with
  | none => ""
  | some j =>
    let i := cs.length - 1 - j
    if 0 < i ∧ i + 1 < cs.length then ⟨cs.drop i⟩ else ""

/-- One file's assessment (dataclass `FileEvaluation`). -/
structure FileEvaluation where
  filename : String
  score : Int
  reason : String
  file_type : String
deriving DecidableEq

/-- The run's final report (dataclass `OverallEvaluation`). -/
structure OverallEvaluation where
  score : Int
  reason : String
  total_files : Nat
  file_evaluations : List FileEvaluation
deriving DecidableEq

/-- `AICodeEvaluator.CODE_EXTENSIONS`: the fixed allow-list of source-code
extensions. -/
def CODE_EXTENSIONS : List String :=
  [".py", ".js", ".ts", ".jsx", ".tsx", ".java", ".cpp", ".c", ".cs",
   ".go", ".rs", ".php", ".rb", ".swift", ".kt", ".scala", ".sh",
   ".ps1", ".sql", ".html", ".css", ".vue", ".dart", ".r", ".m"]

/-- A filesystem entry as seen by `folder_path.rglob('*')`: the full path
segments (`Path.parts`, root segments included), whether `is_file()` holds,
and `stat().st_size`. -/
structure FSEntry where
  parts : List String
  isFile : Bool
  size : Nat
deriving DecidableEq

/-- `AICodeEvaluator.is_code_file`: extension-based test. The `suffix.lower()`
is compared against the caller's exclusions first, then the allow-list.
An empty exclusion set behaves like Python's falsy `None`/empty set. -/
def is_code_file (fp : FSEntry) (exclude_extensions : List String) : Bool :=
  if exclude_extensions.contains (lowerStr (pySuffix (pathName fp.parts))) then false
  else CODE_EXTENSIONS.contains (lowerStr (pySuffix (pathName fp.parts)))

/-- `AICodeEvaluator.should_exclude_folder`: some segment of the folder path
is in the caller-supplied exclusion set (Python's `if exclude_folders:` guard
is behaviourally the identity, since no part is contained in an empty set). -/
def should_exclude_folder (folder_parts : List String) (exclude_folders : List String) : Bool :=
  folder_parts.any (fun part => exclude_folders.contains part)

/-- The default folder exclusions of `get_code_files`. -/
def default_exclusions : List String :=
  [".git", "node_modules", "__pycache__", "venv", "env", ".venv"]

/-- `AICodeEvaluator.get_code_files`, with the filesystem walk
`folder_path.rglob('*')` abstracted as the input list `entries` of all
entries under the scan root (each carrying its full `parts`).  The filter
mirrors the Python loop: skip when any path segment starts with `'.'` or is
an excluded folder name; skip when the parent folder matches the
caller-supplied exclusions; keep regular files with an allowed extension and
positive size. -/
def get_code_files (entries : List FSEntry)
    (exclude_extensions : List String) (exclude_folders : List String) : List FSEntry :=
  let all_excluded_folders := default_exclusions ++ exclude_folders
  entries.filter fun fp =>
    if fp.parts.any (fun part => startsDot part || all_excluded_folders.contains part) then false
    else if should_exclude_folder fp.parts.dropLast exclude_folders then false
    else fp.isFile && is_code_file fp exclude_extensions && decide (fp.size > 0)

/-- The eligibility predicate exactly as the specification states it: a
regular file of positive size whose lower-cased extension is in the fixed
allow-list and not in the caller-supplied exclusion set, and no segment of
whose path starts with `'.'` or equals a name in the default folder-exclusion
set unioned with the caller-supplied folder-exclusion set. -/
def eligible_spec (fp : FSEntry)
    (exclude_extensions : List String) (exclude_folders : List String) : Prop :=
  fp.isFile = true ∧ 0 < fp.size ∧
  lowerStr (pySuffix (pathName fp.parts)) ∈ CODE_EXTENSIONS ∧
  lowerStr (pySuffix (pathName fp.parts)) ∉ exclude_extensions ∧
  ∀ part ∈ fp.parts, startsDot part = false ∧
    part ∉ default_exclusions ∧ part ∉ exclude_folders

/-- `AICodeEvaluator.read_file_content`: the file read is abstracted as an
`Except` carrying either the decoded text or the exception message.  Content
longer than 8000 code points is truncated with a marker; a read failure
becomes a sentinel string, never a propagated exception. -/
def read_file_content (outcome : Except String String) : String :=
  match outcome with
  | .ok content =>
      if content.length > 8000 then strTake content 8000 ++ "\n... (truncated)"
      else content
  | .error e => "Error reading file: " ++ e

/-- The oracle's JSON object as the Python code reads it: `result.get('score')`
already converted by `int(...)` when present, and `result.get('reason')`. -/
structure OracleJson where
  score : Option Int
  reason : Option String
deriving DecidableEq

/-- The outcome of one oracle invocation inside `evaluate_file`'s outer `try`:
either the call returned text (`result_text`), which `json.loads` either
parses (`some`) or rejects (`none`, the `json.JSONDecodeError` branch), or the
invocation itself raised with the given message (the `except Exception`
branch). -/
inductive OracleOutcome where
  | success (result_text : String) (parsed : Option OracleJson)
  | failure (message : String)
deriving DecidableEq

/-- `AICodeEvaluator.evaluate_file` after the prompt is sent: builds the
`FileEvaluation` from the oracle outcome.  A parsed response is clamped with
`max(1, min(10, score))`, defaulting score to 5 and reason to
`'No reason provided'` when fields are absent; a parse failure falls back to
score 5 with the first 200 code points of the raw text; an invocation failure
falls back to score 5 with the exception message. -/
def evaluate_file (filename : String) (file_type : String)
    (outcome : OracleOutcome) : FileEvaluation :=
  match outcome with
  | .success result_text parsed =>
      match parsed with
      | some result =>
          { filename := filename,
            score := max 1 (min 10 (result.score.getD 5)),
            reason := result.reason.getD "No reason provided",
            file_type := file_type }
      | none =>
          { filename := filename,
            score := 5,
            reason := "Unable to parse AI response: " ++ strTake result_text 200,
            file_type := file_type }
  | .failure e =>
      { filename := filename,
        score := 5,
        reason := "Error during evaluation: " ++ e,
        file_type := file_type }

/-- Python 3 `round` to an integer: round half to even (banker's rounding). -/
def pythonRound (q : ℚ) : ℤ :=
  let n := ⌊q⌋
  let frac := q - n
  if frac < 1/2 then n
  else if 1/2 < frac then n + 1
  else if n % 2 = 0 then n else n + 1

/-- `total_score / len(file_evaluations)` of `calculate_overall_score`. -/
def average_score (l : List FileEvaluation) : ℚ :=
  ((l.map (fun ev => ev.score)).sum : ℚ) / (l.length : ℚ)

/-- `high_scores`: count of evaluations with score ≥ 7. -/
def high_count (l : List FileEvaluation) : Nat :=
  (l.filter (fun ev => decide (7 ≤ ev.score))).length

/-- `medium_scores`: count of evaluations with 4 ≤ score ≤ 6. -/
def medium_count (l : List FileEvaluation) : Nat :=
  (l.filter (fun ev => decide (4 ≤ ev.score ∧ ev.score ≤ 6))).length

/-- `low_scores`: count of evaluations with score ≤ 3. -/
def low_count (l : List FileEvaluation) : Nat :=
  (l.filter (fun ev => decide (ev.score ≤ 3))).length

/-- The f-string `"Most files ({high_scores}/{total}) show strong indicators
of AI generation"`. -/
def reason_high (h t : Nat) : String :=
  s!"Most files ({h}/{t}) show strong indicators of AI generation"

/-- The f-string `"Most files ({low_scores}/{total}) appear to be
human-written"`. -/
def reason_low (lo t : Nat) : String :=
  s!"Most files ({lo}/{t}) appear to be human-written"

/-- The f-string `"Mixed results: {high} likely AI-generated, {medium}
uncertain, {low} likely human-written"`. -/
def reason_mixed (h m lo : Nat) : String :=
  s!"Mixed results: {h} likely AI-generated, {m} uncertain, {lo} likely human-written"

/-- `AICodeEvaluator.calculate_overall_score`.  The empty list yields the
degenerate report; otherwise the overall score is the clamped half-to-even
rounding of the mean, and the reason is selected by the `0.6 * total`
threshold chain. -/
def calculate_overall_score (file_evaluations : List FileEvaluation) : OverallEvaluation :=
  if file_evaluations.isEmpty then
    { score := 1,
      reason := "No code files found to evaluate",
      total_files := 0,
      file_evaluations := [] }
  else
    let overall_score : Int := max 1 (min 10 (pythonRound (average_score file_evaluations)))
    let total : Nat := file_evaluations.length
    let high_scores : Nat := high_count file_evaluations
    let medium_scores : Nat := medium_count file_evaluations
    let low_scores : Nat := low_count file_evaluations
    let reason : String :=
      if (high_scores : ℚ) > (total : ℚ) * 0.6 then
        reason_high high_scores total
      else if (low_scores : ℚ) > (total : ℚ) * 0.6 then
        reason_low low_scores total
      else
        reason_mixed high_scores medium_scores low_scores
    { score := overall_score,
      reason := reason,
      total_files := total,
      file_evaluations := file_evaluations }

/-- Phase of one file-evaluation task in `evaluate_folder`: not yet admitted
by the semaphore, holding the semaphore (oracle call in flight), or finished. -/
inductive TaskPhase where
  | waiting
  | running
  | done
deriving DecidableEq

/-- Count of tasks in a given phase. -/
def countPhase (t : TaskPhase) : List TaskPhase → Nat
  | [] => 0
  | x :: xs => (if x = t then 1 else 0) + countPhase t xs

/-- State of `evaluate_folder`'s fan-out: the phase of every task and the
free permits of `asyncio.Semaphore(5)`. -/
structure SemState where
  tasks : List TaskPhase
  permits : Nat
deriving DecidableEq

/-- Initial state for `n` eligible files: all tasks created up front and
waiting, the semaphore holding its full 5 permits. -/
def initState (n : Nat) : SemState :=
  { tasks := List.replicate n TaskPhase.waiting, permits := 5 }

/-- Interleaving semantics of `evaluate_with_semaphore`: a waiting task may
enter `async with semaphore` only when a permit is free (taking one); a
running task may finish, unconditionally returning its permit. -/
inductive SemStep : SemState → SemState → Prop where
  | acquire (s : SemState) (i : Nat)
      (h : s.tasks[i]? = some TaskPhase.waiting) (hp : 0 < s.permits) :
      SemStep s { tasks := s.tasks.set i TaskPhase.running, permits := s.permits - 1 }
  | release (s : SemState) (i : Nat)
      (h : s.tasks[i]? = some TaskPhase.running) :
      SemStep s { tasks := s.tasks.set i TaskPhase.done, permits := s.permits + 1 }

/-- Number of oracle invocations in flight: tasks currently holding the
semaphore. -/
def inFlight (s : SemState) : Nat := countPhase TaskPhase.running s.tasks

/-- States reachable by the fan-out over `n` files. -/
def Reachable (n : Nat) (s : SemState) : Prop :=
  Relation.ReflTransGen SemStep (initState n) s

/-- The semaphore invariant: task count is preserved and in-flight tasks plus
free permits always total the semaphore's initial 5 permits. -/
def SemInv (n : Nat) (s : SemState) : Prop :=
  s.tasks.length = n ∧ countPhase TaskPhase.running s.tasks + s.permits = 5

/-- A concrete scan root lying under a hidden `.config` directory. -/
def sampleRoot : List String := ["/", "home", "user", ".config", "proj"]

/-- A concrete candidate file below `sampleRoot`: a non-empty regular `a.py`. -/
def sampleEntry : FSEntry :=
  { parts := ["/", "home", "user", ".config", "proj", "a.py"], isFile := true, size := 10 }

/-! ### Helper lemmas -/

theorem strTake_append_drop (t : String) (n : Nat) :
    strTake t n ++ (⟨t.data.drop n⟩ : String) = t := by
  show String.mk (t.data.take n ++ t.data.drop n) = t
  rw [List.take_append_drop]

theorem strTake_length_le (t : String) (n : Nat) : (strTake t n).length ≤ n := by
  show (t.data.take n).length ≤ n
  simp [List.length_take]

theorem pythonRound_nearest (q : ℚ) : |(pythonRound q : ℚ) - q| ≤ 1/2 := by
  unfold pythonRound
  have h1 : (⌊q⌋ : ℚ) ≤ q := Int.floor_le q
  have h2 : q < ⌊q⌋ + 1 := Int.lt_floor_add_one q
  simp only []
  split
  · rw [abs_le]; constructor <;> linarith
  · split
    · rw [abs_le]; push_cast; constructor <;> linarith
    · split <;> (rw [abs_le]; push_cast; constructor <;> linarith)

theorem countPhase_set (l : List TaskPhase) (i : Nat) (a b c : TaskPhase)
    (h : l[i]? = some a) :
    countPhase c (l.set i b) + (if a = c then 1 else 0)
      = countPhase c l + (if b = c then 1 else 0) := by
  induction l generalizing i with
  | nil => simp at h
  | cons x xs ih =>
    cases i with
    | zero =>
      simp at h
      subst h
      simp [List.set, countPhase]
      omega
    | succ j =>
      simp at h
      have := ih j h
      simp [List.set, countPhase]
      omega

theorem countPhase_replicate_waiting (n : Nat) :
    countPhase TaskPhase.running (List.replicate n TaskPhase.waiting) = 0 := by
  induction n with
  | zero => rfl
  | succ m ih => simp [List.replicate_succ, countPhase, ih]

theorem exists_phase_index (c : TaskPhase) (l : List TaskPhase)
    (h : 0 < countPhase c l) : ∃ i : Nat, l[i]? = some c := by
  induction l with
  | nil => simp [countPhase] at h
  | cons x xs ih =>
    by_cases hx : x = c
    · exact ⟨0, by simp [hx]⟩
    · have hxs : 0 < countPhase c xs := by simpa [countPhase, hx] using h
      obtain ⟨i, hi⟩ := ih hxs
      exact ⟨i + 1, by simpa using hi⟩

theorem all_done_of_counts : ∀ (l : List TaskPhase),
    countPhase TaskPhase.waiting l = 0 → countPhase TaskPhase.running l = 0 →
    ∀ x ∈ l, x = TaskPhase.done := by
  intro l
  induction l with
  | nil => intro _ _ y hy; simp at hy
  | cons x xs ih =>
    intro hw hr y hy
    have hw' : countPhase TaskPhase.waiting xs = 0 := by
      simp [countPhase] at hw; omega
    have hr' : countPhase TaskPhase.running xs = 0 := by
      simp [countPhase] at hr; omega
    rcases List.mem_cons.mp hy with rfl | hy'
    · cases y with
      | waiting => exfalso; simp [countPhase] at hw
      | running => exfalso; simp [countPhase] at hr
      | done => rfl
    · exact ih hw' hr' y hy'

theorem semInv_step (n : Nat) (s s' : SemState)
    (hinv : SemInv n s) (hstep : SemStep s s') : SemInv n s' := by
  obtain ⟨hlen, hcount⟩ := hinv
  cases hstep with
  | acquire i h hp =>
    refine ⟨by simpa using hlen, ?_⟩
    have hc := countPhase_set s.tasks i TaskPhase.waiting TaskPhase.running TaskPhase.running h
    simp at hc
    simp only [SemInv]
    omega
  | release i h =>
    refine ⟨by simpa using hlen, ?_⟩
    have hc := countPhase_set s.tasks i TaskPhase.running TaskPhase.done TaskPhase.running h
    simp at hc
    simp only [SemInv]
    omega

theorem reachable_semInv (n : Nat) (s : SemState) (h : Reachable n s) : SemInv n s := by
  unfold Reachable at h
  induction h with
  | refl =>
    exact ⟨by simp [initState], by simp [initState, countPhase_replicate_waiting]⟩
  | tail hsteps hstep ih => exact semInv_step n _ _ ih hstep

theorem completion_from (m : Nat) : ∀ (n : Nat) (s : SemState), SemInv n s →
    2 * countPhase TaskPhase.waiting s.tasks + countPhase TaskPhase.running s.tasks ≤ m →
    ∃ t, Relation.ReflTransGen SemStep s t ∧ t.tasks.length = n ∧
      ∀ x ∈ t.tasks, x = TaskPhase.done := by
  induction m with
  | zero =>
    intro n s hinv hm
    have hw : countPhase TaskPhase.waiting s.tasks = 0 := by omega
    have hr : countPhase TaskPhase.running s.tasks = 0 := by omega
    exact ⟨s, Relation.ReflTransGen.refl, hinv.1, all_done_of_counts s.tasks hw hr⟩
  | succ k ih =>
    intro n s hinv hm
    by_cases hr : 0 < countPhase TaskPhase.running s.tasks
    · obtain ⟨i, hi⟩ := exists_phase_index TaskPhase.running s.tasks hr
      have hstep : SemStep s ⟨s.tasks.set i TaskPhase.done, s.permits + 1⟩ :=
        SemStep.release s i hi
      have hinv' : SemInv n ⟨s.tasks.set i TaskPhase.done, s.permits + 1⟩ :=
        semInv_step n s _ hinv hstep
      have hcW := countPhase_set s.tasks i TaskPhase.running TaskPhase.done TaskPhase.waiting hi
      have hcR := countPhase_set s.tasks i TaskPhase.running TaskPhase.done TaskPhase.running hi
      simp at hcW hcR
      have hμ : 2 * countPhase TaskPhase.waiting (s.tasks.set i TaskPhase.done)
          + countPhase TaskPhase.running (s.tasks.set i TaskPhase.done) ≤ k := by omega
      obtain ⟨t, htrans, hlen, hdone⟩ :=
        ih n ⟨s.tasks.set i TaskPhase.done, s.permits + 1⟩ hinv' hμ
      exact ⟨t, Relation.ReflTransGen.head hstep htrans, hlen, hdone⟩
    · by_cases hw : 0 < countPhase TaskPhase.waiting s.tasks
      · obtain ⟨i, hi⟩ := exists_phase_index TaskPhase.waiting s.tasks hw
        have hp : 0 < s.permits := by
          have := hinv.2
          omega
        have hstep : SemStep s ⟨s.tasks.set i TaskPhase.running, s.permits - 1⟩ :=
          SemStep.acquire s i hi hp
        have hinv' : SemInv n ⟨s.tasks.set i TaskPhase.running, s.permits - 1⟩ :=
          semInv_step n s _ hinv hstep
        have hcW := countPhase_set s.tasks i TaskPhase.waiting TaskPhase.running TaskPhase.waiting hi
        have hcR := countPhase_set s.tasks i TaskPhase.waiting TaskPhase.running TaskPhase.running hi
        simp at hcW hcR
        have hμ : 2 * countPhase TaskPhase.waiting (s.tasks.set i TaskPhase.running)
            + countPhase TaskPhase.running (s.tasks.set i TaskPhase.running) ≤ k := by omega
        obtain ⟨t, htrans, hlen, hdone⟩ :=
          ih n ⟨s.tasks.set i TaskPhase.running, s.permits - 1⟩ hinv' hμ
        exact ⟨t, Relation.ReflTransGen.head hstep htrans, hlen, hdone⟩
      · have hw0 : countPhase TaskPhase.waiting s.tasks = 0 := by omega
        have hr0 : countPhase TaskPhase.running s.tasks = 0 := by omega
        exact ⟨s, Relation.ReflTransGen.refl, hinv.1, all_done_of_counts s.tasks hw0 hr0⟩

theorem is_code_file_iff (fp : FSEntry) (ee : List String) :
    is_code_file fp ee = true
      ↔ lowerStr (pySuffix (pathName fp.parts)) ∈ CODE_EXTENSIONS ∧
        lowerStr (pySuffix (pathName fp.parts)) ∉ ee := by
  unfold is_code_file
  by_cases hc : ee.contains (lowerStr (pySuffix (pathName fp.parts))) = true
  · rw [if_pos hc]
    constructor
    · intro hfalse
      exact absurd hfalse (by simp)
    · rintro ⟨-, hnot⟩
      exact absurd (List.elem_iff.mp hc) hnot
  · rw [if_neg hc]
    constructor
    · intro hmem
      exact ⟨List.elem_iff.mp hmem, fun hin => hc (List.elem_iff.mpr hin)⟩
    · rintro ⟨hin, -⟩
      exact List.elem_iff.mpr hin

theorem selection_pred_iff (fp : FSEntry) (ee ef : List String) :
    ((if fp.parts.any (fun part => startsDot part
          || (default_exclusions ++ ef).contains part) then false
      else if should_exclude_folder fp.parts.dropLast ef then false
      else fp.isFile && is_code_file fp ee && decide (fp.size > 0)) = true)
    ↔ eligible_spec fp ee ef := by
  by_cases hA : fp.parts.any (fun part => startsDot part
      || (default_exclusions ++ ef).contains part) = true
  · rw [if_pos hA]
    constructor
    · intro hfalse
      exact absurd hfalse (by simp)
    · rintro ⟨-, -, -, -, hparts⟩
      rw [List.any_eq_true] at hA
      obtain ⟨part, hmem, hbad⟩ := hA
      obtain ⟨hdot, hdef, hef⟩ := hparts part hmem
      rw [Bool.or_eq_true] at hbad
      cases hbad with
      | inl hb => rw [hdot] at hb; exact absurd hb (by simp)
      | inr hb =>
        cases List.mem_append.mp (List.elem_iff.mp hb) with
        | inl hd => exact (hdef hd).elim
        | inr hd => exact (hef hd).elim
  · rw [if_neg hA]
    have hclean : ∀ part ∈ fp.parts, startsDot part = false ∧
        part ∉ default_exclusions ∧ part ∉ ef := by
      intro part hmem
      rw [List.any_eq_true] at hA
      push_neg at hA
      have hbad := hA part hmem
      refine ⟨?_, ?_, ?_⟩
      · cases hsd : startsDot part
        · rfl
        · exact absurd (by rw [Bool.or_eq_true]; exact Or.inl hsd) hbad
      · intro hd
        exact hbad (by
          rw [Bool.or_eq_true]
          exact Or.inr (List.elem_iff.mpr (List.mem_append.mpr (Or.inl hd))))
      · intro hd
        exact hbad (by
          rw [Bool.or_eq_true]
          exact Or.inr (List.elem_iff.mpr (List.mem_append.mpr (Or.inr hd))))
    have hB : ¬(should_exclude_folder fp.parts.dropLast ef = true) := by
      unfold should_exclude_folder
      rw [List.any_eq_true]
      rintro ⟨part, hmem, hc⟩
      have hmem' : part ∈ fp.parts := List.mem_of_mem_dropLast hmem
      exact (hclean part hmem').2.2 (List.elem_iff.mp hc)
    rw [if_neg hB]
    rw [Bool.and_eq_true, Bool.and_eq_true, is_code_file_iff, decide_eq_true_eq]
    unfold eligible_spec
    constructor
    · rintro ⟨⟨hfile, hext, hnee⟩, hsize⟩
      exact ⟨hfile, hsize, hext, hnee, hclean⟩
    · rintro ⟨hfile, hsize, hext, hnee, -⟩
      exact ⟨⟨hfile, hext, hnee⟩, hsize⟩

/-! ### Claims -/

/-- Claim C1: when the oracle's text fails to parse as the expected
structured shape, `evaluate_file` falls back to score 5 and a reason that
reports the parse failure and carries the first at-most-200 code points of
the raw output (a prefix of it). -/
theorem c1_unparseable_output_fallback (fn ft t : String) :
    (evaluate_file fn ft (.success t none)).score = 5 ∧
    (evaluate_file fn ft (.success t none)).reason
      = "Unable to parse AI response: " ++ strTake t 200 ∧
    (strTake t 200).length ≤ 200 ∧
    strTake t 200 ++ (⟨t.data.drop 200⟩ : String) = t := by
  refine ⟨rfl, rfl, strTake_length_le t 200, strTake_append_drop t 200⟩

/-- Claim C4: when the oracle's output parses into the expected shape, the
recorded score is the provided score clamped to [1,10] (15 becomes 10, -3
becomes 1), and an absent reason field yields the fixed placeholder reason. -/
theorem c4_parsed_score_clamped (fn ft t : String) (s : Int) (r : Option String) :
    (10 < s → (evaluate_file fn ft (.success t (some ⟨some s, r⟩))).score = 10) ∧
    (s < 1 → (evaluate_file fn ft (.success t (some ⟨some s, r⟩))).score = 1) ∧
    (1 ≤ s → s ≤ 10 → (evaluate_file fn ft (.success t (some ⟨some s, r⟩))).score = s) ∧
    (evaluate_file fn ft (.success t (some ⟨some 15, some "x"⟩))).score = 10 ∧
    (evaluate_file fn ft (.success t (some ⟨some (-3), none⟩))).score = 1 ∧
    (∀ sc : Option Int,
      (evaluate_file fn ft (.success t (some ⟨sc, none⟩))).reason = "No reason provided") := by
  refine ⟨?_, ?_, ?_, by rfl, by rfl, fun sc => rfl⟩
  · intro h
    show max 1 (min 10 s) = 10
    omega
  · intro h
    show max 1 (min 10 s) = 1
    omega
  · intro h1 h2
    show max 1 (min 10 s) = s
    omega

/-- Claim C4 witness: concrete out-of-range scores are pulled to the bounds. -/
theorem c4_parsed_score_clamped_witness :
    (10 : Int) < 15 ∧ (-3 : Int) < 1 ∧ (1 : Int) ≤ 7 ∧ (7 : Int) ≤ 10 ∧
    (evaluate_file "f" ".py" (.success "t" (some ⟨some 15, some "x"⟩))).score = 10 ∧
    (evaluate_file "f" ".py" (.success "t" (some ⟨some (-3), none⟩))).score = 1 ∧
    (evaluate_file "f" ".py" (.success "t" (some ⟨some 7, none⟩))).score = 7 :=
  ⟨by decide, by decide, by decide, by decide,
   (c4_parsed_score_clamped "f" ".py" "t" 15 (some "x")).1 (by decide),
   ((c4_parsed_score_clamped "f" ".py" "t" (-3) none).2).1 (by decide),
   (((c4_parsed_score_clamped "f" ".py" "t" 7 none).2).2).1 (by decide) (by decide)⟩

/-- Claim C2: for a non-empty sequence the overall score is the arithmetic
mean of the individual scores rounded to the nearest integer (half-to-even on
ties, so always within 1/2 of the mean) and clamped to [1,10]; the empty
sequence yields score 1 with an explanatory reason and no file evaluations;
in every case the overall score lies in [1,10]. -/
theorem c2_overall_score_mean (l : List FileEvaluation) (h : l ≠ []) :
    (calculate_overall_score l).score
      = max 1 (min 10 (pythonRound (average_score l))) ∧
    |(pythonRound (average_score l) : ℚ) - average_score l| ≤ 1/2 ∧
    1 ≤ (calculate_overall_score l).score ∧ (calculate_overall_score l).score ≤ 10 ∧
    (calculate_overall_score []).score = 1 ∧
    (calculate_overall_score []).reason = "No code files found to evaluate" ∧
    (calculate_overall_score []).file_evaluations = [] := by
  have hne : ¬(l.isEmpty = true) := by
    simpa [List.isEmpty_iff] using h
  have hscore : (calculate_overall_score l).score
      = max 1 (min 10 (pythonRound (average_score l))) := by
    unfold calculate_overall_score
    rw [if_neg hne]
  refine ⟨hscore, pythonRound_nearest _, ?_, ?_, rfl, rfl, rfl⟩
  · rw [hscore]; exact le_max_left 1 _
  · rw [hscore]; exact max_le (by norm_num) (min_le_left 10 _)

/-- Claim C2 witness: for scores [9, 2] the mean 11/2 rounds half-to-even to
6 and the report carries score 6. -/
theorem c2_overall_score_mean_witness :
    ([⟨"a", 9, "r", ".py"⟩, ⟨"b", 2, "r", ".py"⟩] : List FileEvaluation) ≠ [] ∧
    (calculate_overall_score [⟨"a", 9, "r", ".py"⟩, ⟨"b", 2, "r", ".py"⟩]).score = 6 := by
  refine ⟨by simp, ?_⟩
  have h := (c2_overall_score_mean [⟨"a", 9, "r", ".py"⟩, ⟨"b", 2, "r", ".py"⟩] (by simp)).1
  rw [h]
  have havg : average_score [⟨"a", 9, "r", ".py"⟩, ⟨"b", 2, "r", ".py"⟩] = 11/2 := by
    norm_num [average_score]
  rw [havg]
  norm_num [pythonRound]

/-- Claim C3: for a non-empty sequence, with `high` the count of scores ≥ 7,
`medium` the count of scores in [4,6], `low` the count of scores ≤ 3, the
reason is selected by the first matching rule: AI-generation wording citing
high/total when `high > 0.6 * total`, human-written wording citing low/total
when `low > 0.6 * total`, else mixed wording citing all three counts. -/
theorem c3_reason_selection (l : List FileEvaluation) (h : l ≠ []) :
    high_count l = (l.filter (fun ev => decide (7 ≤ ev.score))).length ∧
    medium_count l = (l.filter (fun ev => decide (4 ≤ ev.score ∧ ev.score ≤ 6))).length ∧
    low_count l = (l.filter (fun ev => decide (ev.score ≤ 3))).length ∧
    ((high_count l : ℚ) > (l.length : ℚ) * 0.6 →
      (calculate_overall_score l).reason = reason_high (high_count l) l.length) ∧
    (¬((high_count l : ℚ) > (l.length : ℚ) * 0.6) →
      (low_count l : ℚ) > (l.length : ℚ) * 0.6 →
      (calculate_overall_score l).reason = reason_low (low_count l) l.length) ∧
    (¬((high_count l : ℚ) > (l.length : ℚ) * 0.6) →
      ¬((low_count l : ℚ) > (l.length : ℚ) * 0.6) →
      (calculate_overall_score l).reason
        = reason_mixed (high_count l) (medium_count l) (low_count l)) := by
  have hne : ¬(l.isEmpty = true) := by
    simpa [List.isEmpty_iff] using h
  have hcalc : (calculate_overall_score l).reason
      = (if (high_count l : ℚ) > (l.length : ℚ) * 0.6 then
          reason_high (high_count l) l.length
         else if (low_count l : ℚ) > (l.length : ℚ) * 0.6 then
          reason_low (low_count l) l.length
         else reason_mixed (high_count l) (medium_count l) (low_count l)) := by
    unfold calculate_overall_score
    rw [if_neg hne]
  refine ⟨rfl, rfl, rfl, fun h1 => ?_, fun h1 h2 => ?_, fun h1 h2 => ?_⟩
  · rw [hcalc, if_pos h1]
  · rw [hcalc, if_neg h1, if_pos h2]
  · rw [hcalc, if_neg h1, if_neg h2]

/-- Claim C3 witness: for scores [9, 9, 9, 9, 2] (4 of 5 scores ≥ 7, and
4 > 5·0.6) the reason is the AI-generation wording citing 4/5. -/
theorem c3_reason_selection_witness :
    ([⟨"a", 9, "r", ".py"⟩, ⟨"b", 9, "r", ".py"⟩, ⟨"c", 9, "r", ".py"⟩,
      ⟨"d", 9, "r", ".py"⟩, ⟨"e", 2, "r", ".py"⟩] : List FileEvaluation) ≠ [] ∧
    ((4 : ℚ) > (5 : ℚ) * 0.6) ∧
    (calculate_overall_score
      [⟨"a", 9, "r", ".py"⟩, ⟨"b", 9, "r", ".py"⟩, ⟨"c", 9, "r", ".py"⟩,
       ⟨"d", 9, "r", ".py"⟩, ⟨"e", 2, "r", ".py"⟩]).reason = reason_high 4 5 := by
  refine ⟨by simp, by norm_num, ?_⟩
  have hhigh : high_count
      [⟨"a", 9, "r", ".py"⟩, ⟨"b", 9, "r", ".py"⟩, ⟨"c", 9, "r", ".py"⟩,
       ⟨"d", 9, "r", ".py"⟩, ⟨"e", 2, "r", ".py"⟩] = 4 := rfl
  have h := (c3_reason_selection
      [⟨"a", 9, "r", ".py"⟩, ⟨"b", 9, "r", ".py"⟩, ⟨"c", 9, "r", ".py"⟩,
       ⟨"d", 9, "r", ".py"⟩, ⟨"e", 2, "r", ".py"⟩] (by simp)).2.2.2.1
  rw [hhigh] at h
  have hlen : ([⟨"a", 9, "r", ".py"⟩, ⟨"b", 9, "r", ".py"⟩, ⟨"c", 9, "r", ".py"⟩,
       ⟨"d", 9, "r", ".py"⟩, ⟨"e", 2, "r", ".py"⟩] : List FileEvaluation).length = 5 := rfl
  rw [hlen] at h
  exact h (by norm_num)

/-- Claim C5: an oracle invocation failure is recovered locally into a
`FileEvaluation` with score 5 and a reason carrying the failure description;
`evaluate_file` is a total function and, over a batch, each file's result
depends only on that file's own outcome, so one failure affects no other
file and aborts nothing. -/
theorem c5_invocation_failure_recovery (fn ft e : String) :
    (evaluate_file fn ft (.failure e)).score = 5 ∧
    (evaluate_file fn ft (.failure e)).reason = "Error during evaluation: " ++ e ∧
    ∀ (batch : List (String × String × OracleOutcome)) (i : Nat),
      (batch.map fun p => evaluate_file p.1 p.2.1 p.2.2)[i]?
        = (batch[i]?).map fun p => evaluate_file p.1 p.2.1 p.2.2 := by
  refine ⟨rfl, rfl, fun batch i => ?_⟩
  exact List.getElem?_map _ batch i

/-- Claim C7: the aggregator's report always satisfies
`totalFiles = length fileEvaluations`. -/
theorem c7_total_files_invariant (l : List FileEvaluation) :
    (calculate_overall_score l).total_files
      = (calculate_overall_score l).file_evaluations.length := by
  unfold calculate_overall_score
  split
  · rfl
  · rfl

/-- Claim C8: the content loader never fails its caller: successfully read
content longer than 8000 code points is truncated to the first 8000 plus the
truncation marker, shorter content is returned as is, and a read failure
yields a sentinel string embedding the error description. -/
theorem c8_content_loader (content e : String) :
    (content.length > 8000 →
      read_file_content (.ok content) = strTake content 8000 ++ "\n... (truncated)") ∧
    (content.length ≤ 8000 → read_file_content (.ok content) = content) ∧
    read_file_content (.error e) = "Error reading file: " ++ e := by
  refine ⟨fun h => ?_, fun h => ?_, rfl⟩
  · show (if content.length > 8000 then strTake content 8000 ++ "\n... (truncated)"
        else content) = _
    rw [if_pos h]
  · show (if content.length > 8000 then strTake content 8000 ++ "\n... (truncated)"
        else content) = _
    rw [if_neg (by omega)]

/-- Claim C8 witness: a concrete 8001-character content is truncated, a short
one is untouched, and a concrete failure yields the sentinel. -/
theorem c8_content_loader_witness :
    (String.mk (List.replicate 8001 'a')).length > 8000 ∧
    read_file_content (.ok (String.mk (List.replicate 8001 'a')))
      = strTake (String.mk (List.replicate 8001 'a')) 8000 ++ "\n... (truncated)" ∧
    ("hi" : String).length ≤ 8000 ∧
    read_file_content (.ok "hi") = "hi" := by
  have hlen : (String.mk (List.replicate 8001 'a')).length = 8001 :=
    List.length_replicate 8001 'a'
  refine ⟨by omega, (c8_content_loader _ "e").1 (by omega),
    by decide, (c8_content_loader "hi" "e").2.1 (by decide)⟩

/-- Claim C6: `get_code_files` returns exactly those entries that are regular
files of positive size, whose lower-cased extension is in the fixed allow-list
and not in the caller-supplied exclusion set, and none of whose path segments
starts with `'.'` or equals a name in the default folder-exclusion set unioned
with the caller-supplied folder-exclusion set. -/
theorem c6_file_selection (fp : FSEntry) (entries : List FSEntry) (ee ef : List String) :
    fp ∈ get_code_files entries ee ef ↔ fp ∈ entries ∧ eligible_spec fp ee ef := by
  unfold get_code_files
  simp only []
  rw [List.mem_filter]
  exact and_congr_right fun _ => selection_pred_iff fp ee ef

/-- Claim C9: in every reachable state of the semaphore-guarded fan-out over
`n` files, at most 5 oracle invocations are in flight, and from every such
state the run can proceed to a state in which all `n` tasks have completed. -/
theorem c9_bounded_concurrency (n : Nat) (s : SemState) (h : Reachable n s) :
    inFlight s ≤ 5 ∧
    ∃ t, Relation.ReflTransGen SemStep s t ∧ t.tasks.length = n ∧
      ∀ x ∈ t.tasks, x = TaskPhase.done := by
  have hinv := reachable_semInv n s h
  refine ⟨?_, ?_⟩
  · have := hinv.2
    unfold inFlight
    omega
  · exact completion_from
      (2 * countPhase TaskPhase.waiting s.tasks + countPhase TaskPhase.running s.tasks)
      n s hinv le_rfl

/-- Claim C9 witness: the initial state over 2 files is reachable, respects
the cap, and can run to completion. -/
theorem c9_bounded_concurrency_witness :
    Reachable 2 (initState 2) ∧ inFlight (initState 2) ≤ 5 ∧
    ∃ t, Relation.ReflTransGen SemStep (initState 2) t ∧ t.tasks.length = 2 ∧
      ∀ x ∈ t.tasks, x = TaskPhase.done :=
  ⟨Relation.ReflTransGen.refl,
   (c9_bounded_concurrency 2 (initState 2) Relation.ReflTransGen.refl).1,
   (c9_bounded_concurrency 2 (initState 2) Relation.ReflTransGen.refl).2⟩

/-- Claim C10: when the scan root's own path contains a segment that starts
with `'.'` or is in the default folder-exclusion set, every candidate file
(whose full path extends the root's segments) is filtered out, so
`get_code_files` returns the empty list for every caller-supplied exclusion
set. -/
theorem c10_root_segments_filtered (rootParts : List String)
    (hbad : ∃ part ∈ rootParts, startsDot part = true ∨ part ∈ default_exclusions)
    (entries : List FSEntry) (hroot : ∀ e ∈ entries, rootParts <+: e.parts)
    (ee ef : List String) :
    get_code_files entries ee ef = [] := by
  unfold get_code_files
  simp only []
  rw [List.filter_eq_nil_iff]
  intro fp hmem
  obtain ⟨part, hpmem, hpbad⟩ := hbad
  have hpmem' : part ∈ fp.parts := (hroot fp hmem).subset hpmem
  have hA : fp.parts.any (fun part => startsDot part
      || (default_exclusions ++ ef).contains part) = true := by
    rw [List.any_eq_true]
    refine ⟨part, hpmem', ?_⟩
    rw [Bool.or_eq_true]
    cases hpbad with
    | inl hb => exact Or.inl hb
    | inr hb => exact Or.inr (List.elem_iff.mpr (List.mem_append.mpr (Or.inl hb)))
  rw [if_pos hA]
  simp

/-- Claim C10 witness: a scan root under a hidden `.config` directory yields
no files even for a plain `a.py` of positive size and empty caller-supplied
exclusions. -/
theorem c10_root_segments_filtered_witness :
    (∃ part ∈ sampleRoot, startsDot part = true ∨ part ∈ default_exclusions) ∧
    (∀ e ∈ [sampleEntry], sampleRoot <+: e.parts) ∧
    get_code_files [sampleEntry] [] [] = [] := by
  have hbad : ∃ part ∈ sampleRoot, startsDot part = true ∨ part ∈ default_exclusions :=
    ⟨".config", by decide, Or.inl (by decide)⟩
  have hroot : ∀ e ∈ [sampleEntry], sampleRoot <+: e.parts := by
    intro e he
    rw [List.mem_singleton] at he
    subst he
    exact ⟨["a.py"], rfl⟩
  exact ⟨hbad, hroot, c10_root_segments_filtered sampleRoot hbad [sampleEntry] hroot [] []⟩

end CodeEvaluator
